import Mathlib

/-!
# Dead Man's Draw — formal model of the core game engine

This file is a shallow embedding, in Lean 4, of the deterministic core of the
Dead Man's Draw card game:

* the deterministic game simulator (`simulateFullGame` in
  `src/frontend/src/lib/gameSimulator.js`; the copies in
  `src/frontend/tests/e2e/helpers/prover-test.js` and the prover script share
  the identical deck/round/winner logic),
* the arithmetic circuit templates `CardType`, `GameRound` and `GameSim`
  (`src/circuits/game_sim.circom`),
* the proof/seed serialization helpers `g2ToHex` and `generateRandomSeed`
  (`src/frontend/src/lib/soroban.js` prover module, `scripts/prove.js`),
* the relay server's event-log update (`src/relay/src/server.ts`).

The Poseidon hash comes from the external `circomlibjs` library; it is
modelled as abstract function parameters `h2 : Nat → Nat → Nat` (arity 2,
used for card weights and the coin flip) and `h3 : Nat → Nat → Nat → Nat`
(arity 3, used for the combined seed).  Every theorem below is proved for
*all* such functions, hence in particular for the concrete Poseidon instance.

Circuit signals are BN254 field elements; in every honest run considered
here all signal values are tiny naturals (cards < 25, scores ≤ 12,
booleans), so field arithmetic never wraps and the circuit is modelled
over `Nat`.  The circomlib comparator templates (`LessThan(5)`,
`GreaterEqThan(4)`, `IsEqual`, `IsZero`) are modelled by their semantics,
which is exact for the in-range inputs that occur.
-/

/-- Card-type mapping (`cardType` in gameSimulator.js / prover-test.js /
prove.js): indices 0–7 → type 0, 8–15 → type 1, 16–23 → type 2, 24 → type 3
(Black Spot). -/
def cardType (c : Nat) : Nat :=
  if c < 8 then 0 else if c < 16 then 1 else if c < 24 then 2 else 3

/-- Rock-paper-scissors decision (`rpsWinner` in the JS sources):
0 = tie, 1 = P1 wins, 2 = P2 wins. -/
def rpsWinner (t1 t2 : Nat) : Nat :=
  if t1 = t2 then 0 else if (t1 + 1) % 3 = t2 then 1 else 2

/-- Number of cards in the deck (`N_CARDS`). -/
def N_CARDS : Nat := 25

/-- One entry of the JS `weights` array: a card index together with the low
128 bits of its Poseidon weight (`w & mask128`, i.e. `w % 2^128`). -/
structure CardWeight where
  card : Nat
  truncWeight : Nat
deriving Repr, DecidableEq

/-- The `weights` array before sorting: for `i ∈ 0..24`,
`{ card: i, truncWeight: Poseidon2(cs, i) & mask128 }`. -/
def cardWeights (h2 : Nat → Nat → Nat) (cs : Nat) : List CardWeight :=
  (List.range N_CARDS).map fun i => ⟨i, h2 cs i % 2 ^ 128⟩

/-- The JS `weights.sort(comparator)` call: `Array.prototype.sort` is stable
(ECMA-262) and the comparator orders by `truncWeight`, so the result is the
stable ascending sort by `truncWeight`, modelled by insertion sort. -/
def sortWeights (ws : List CardWeight) : List CardWeight :=
  List.insertionSort (fun a b => a.truncWeight ≤ b.truncWeight) ws

/-- The shuffled deck: `weights.map(w => w.card)` after sorting. -/
def deckOf (h2 : Nat → Nat → Nat) (cs : Nat) : List Nat :=
  (sortWeights (cardWeights h2 cs)).map (·.card)

/-- One entry of the simulator's `rounds` array (gameSimulator.js):
cards, types, per-round winner, black-spot flag, cumulative scores and the
game-over flag at the end of the round. -/
structure RoundRec where
  card1 : Nat
  card2 : Nat
  type1 : Nat
  type2 : Nat
  roundWinner : Nat
  blackSpot : Bool
  scoreP1 : Nat
  scoreP2 : Nat
  gameOver : Bool
deriving Repr, DecidableEq

/-- The simulator's mutable locals `scoreP1`, `scoreP2`, `winner`, `gameOver`. -/
structure SimState where
  scoreP1 : Nat
  scoreP2 : Nat
  winner : Nat
  gameOver : Bool
deriving Repr, DecidableEq

/-- Initial simulator state: `scoreP1 = scoreP2 = 0, winner = 0, gameOver = false`. -/
def simInit : SimState := ⟨0, 0, 0, false⟩

/-- One iteration of the simulator's round loop (gameSimulator.js lines
630–666), returning the updated state and the pushed round record. -/
def simRound (s : SimState) (c1 c2 : Nat) : SimState × RoundRec :=
  let t1 := cardType c1
  let t2 := cardType c2
  if t1 = 3 then
    (⟨s.scoreP1, s.scoreP2, 2, true⟩,
     ⟨c1, c2, t1, t2, 0, true, s.scoreP1, s.scoreP2, true⟩)
  else if t2 = 3 then
    (⟨s.scoreP1, s.scoreP2, 1, true⟩,
     ⟨c1, c2, t1, t2, 0, true, s.scoreP1, s.scoreP2, true⟩)
  else
    let rps := rpsWinner t1 t2
    let roundWinner := if rps = 1 then 1 else if rps = 2 then 2 else 0
    let sc1 := if rps = 1 then s.scoreP1 + 1 else s.scoreP1
    let sc2 := if rps = 2 then s.scoreP2 + 1 else s.scoreP2
    if sc1 ≥ 3 then
      (⟨sc1, sc2, 1, true⟩, ⟨c1, c2, t1, t2, roundWinner, false, sc1, sc2, true⟩)
    else if sc2 ≥ 3 then
      (⟨sc1, sc2, 2, true⟩, ⟨c1, c2, t1, t2, roundWinner, false, sc1, sc2, true⟩)
    else
      (⟨sc1, sc2, s.winner, s.gameOver⟩,
       ⟨c1, c2, t1, t2, roundWinner, false, sc1, sc2, s.gameOver⟩)

/-- The simulator's round loop `for (i = 0; i < nRounds && !gameOver; i++)`:
processes card pairs until the list ends or the game is over, collecting the
pushed round records. -/
def simRounds : SimState → List (Nat × Nat) → SimState × List RoundRec
  | s, [] => (s, [])
  | s, p :: rest =>
    if s.gameOver then (s, [])
    else
      let sr := simRound s p.1 p.2
      let tail := simRounds sr.1 rest
      (tail.1, sr.2 :: tail.2)

/-- The card pairs `(deck[2i], deck[2i+1])` for the 12 rounds
(`nRounds = (N_CARDS - 1) / 2 = 12`). -/
def deckPairs (deck : List Nat) : List (Nat × Nat) :=
  (List.range 12).map fun i => (deck.getD (2 * i) 0, deck.getD (2 * i + 1) 0)

/-- Result of `simulateFullGame` (gameSimulator.js): deck, round records,
winner and end reason. -/
structure SimResult where
  deck : List Nat
  rounds : List RoundRec
  winner : Nat
  endReason : String
deriving Repr, DecidableEq

/-- The winner computed by the epilogue of `simulateFullGame`: if the game
ended in the loop the loop's winner stands; otherwise the higher score wins,
with the Poseidon coin flip `Poseidon2(cs, 25) & 1` breaking a tie
(`winner = Number(coinHash & 1n) + 1`). -/
def simWinner (h2 : Nat → Nat → Nat) (cs : Nat) (st : SimState) : Nat :=
  if st.gameOver then st.winner
  else if st.scoreP1 > st.scoreP2 then 1
  else if st.scoreP2 > st.scoreP1 then 2
  else h2 cs 25 % 2 + 1

/-- The end reason computed by the epilogue of `simulateFullGame`:
`"blackspot"` if the loop ended on a Black Spot round, `"score"` if it ended
on a score of 3, `"exhausted"`/`"coinflip"` for the deck-exhaustion
branches. -/
def simEndReason (st : SimState) (rounds : List RoundRec) : String :=
  if st.gameOver then
    if ((rounds.getLast?).map (·.blackSpot)).getD false then "blackspot" else "score"
  else if st.scoreP1 > st.scoreP2 then "exhausted"
  else if st.scoreP2 > st.scoreP1 then "exhausted"
  else "coinflip"

/-- The deterministic game simulator `simulateFullGame(seed1, seed2,
sessionId)` from gameSimulator.js, with the Poseidon instances abstracted as
`h2`/`h3`.  `combinedSeed = Poseidon3(seed1, seed2, sessionId)`; the deck is
the stable sort of the 25 cards by truncated Poseidon weight; 12 rounds are
played; then the exhaustion / coin-flip branch runs if the game is still
active. -/
def simulateFullGame (h2 : Nat → Nat → Nat) (h3 : Nat → Nat → Nat → Nat)
    (s1 s2 sid : Nat) : SimResult :=
  let cs := h3 s1 s2 sid
  let deck := deckOf h2 cs
  let r := simRounds simInit (deckPairs deck)
  ⟨deck, r.2, simWinner h2 cs r.1, simEndReason r.1 r.2⟩

/-! ## Basic facts about the simulator -/

/-- The deck component of `simulateFullGame` is `deckOf` applied to the
combined seed. -/
theorem simulateFullGame_deck (h2 : Nat → Nat → Nat) (h3 : Nat → Nat → Nat → Nat)
    (s1 s2 sid : Nat) :
    (simulateFullGame h2 h3 s1 s2 sid).deck = deckOf h2 (h3 s1 s2 sid) := by
  simp only [simulateFullGame]

/-- The winner component of `simulateFullGame` is `simWinner` on the state
after the round loop. -/
theorem simulateFullGame_winner (h2 : Nat → Nat → Nat) (h3 : Nat → Nat → Nat → Nat)
    (s1 s2 sid : Nat) :
    (simulateFullGame h2 h3 s1 s2 sid).winner =
      simWinner h2 (h3 s1 s2 sid)
        (simRounds simInit (deckPairs (deckOf h2 (h3 s1 s2 sid)))).1 := by
  simp only [simulateFullGame]

/-- The endReason component of `simulateFullGame` is `simEndReason` on the
state and records after the round loop. -/
theorem simulateFullGame_endReason (h2 : Nat → Nat → Nat) (h3 : Nat → Nat → Nat → Nat)
    (s1 s2 sid : Nat) :
    (simulateFullGame h2 h3 s1 s2 sid).endReason =
      simEndReason
        (simRounds simInit (deckPairs (deckOf h2 (h3 s1 s2 sid)))).1
        (simRounds simInit (deckPairs (deckOf h2 (h3 s1 s2 sid)))).2 := by
  simp only [simulateFullGame]

/-- The rounds component of `simulateFullGame` is the record list collected
by the round loop. -/
theorem simulateFullGame_rounds (h2 : Nat → Nat → Nat) (h3 : Nat → Nat → Nat → Nat)
    (s1 s2 sid : Nat) :
    (simulateFullGame h2 h3 s1 s2 sid).rounds =
      (simRounds simInit (deckPairs (deckOf h2 (h3 s1 s2 sid)))).2 := by
  simp only [simulateFullGame]

/-- The simulator invariant: `winner ∈ {1,2}` exactly when the game is over,
`winner = 0` otherwise. -/
def SimInv (s : SimState) : Prop :=
  (s.gameOver = false → s.winner = 0) ∧
  (s.gameOver = true → s.winner = 1 ∨ s.winner = 2)

theorem simRound_inv (s : SimState) (c1 c2 : Nat) (h : SimInv s) :
    SimInv (simRound s c1 c2).1 := by
  rcases h with ⟨h0, h12⟩
  unfold SimInv simRound
  dsimp only
  split_ifs <;> simp_all

theorem simRounds_inv (l : List (Nat × Nat)) (s : SimState) (h : SimInv s) :
    SimInv (simRounds s l).1 := by
  induction l generalizing s with
  | nil => exact h
  | cons p rest ih =>
    unfold simRounds
    dsimp only
    split
    · exact h
    · exact ih _ (simRound_inv s p.1 p.2 h)

/-- C1 -- For every pair of seeds and every session id (and every hash
implementation), the winner returned by `simulateFullGame` is 1 or 2: after
the 12-round loop and the exhaustion/coin-flip branch, `winner` is never
left at 0 and never takes any other value. -/
theorem simulateFullGame_winner_one_or_two
    (h2 : Nat → Nat → Nat) (h3 : Nat → Nat → Nat → Nat) (s1 s2 sid : Nat) :
    (simulateFullGame h2 h3 s1 s2 sid).winner = 1 ∨
      (simulateFullGame h2 h3 s1 s2 sid).winner = 2 := by
  have hinv : SimInv (simRounds simInit
      (deckPairs (deckOf h2 (h3 s1 s2 sid)))).1 :=
    simRounds_inv _ _ ⟨fun _ => rfl, by simp [simInit]⟩
  rw [simulateFullGame_winner]
  unfold simWinner
  split
  · next hover =>
    exact hinv.2 hover
  · split
    · exact Or.inl rfl
    · split
      · exact Or.inr rfl
      · rcases Nat.mod_two_eq_zero_or_one (h2 (h3 s1 s2 sid) 25) with h | h
        · exact Or.inl (by rw [h])
        · exact Or.inr (by rw [h])

/-- The deck is a permutation of `0..24`: sorting permutes the weights array,
and mapping `.card` over the unsorted weights gives `range 25`. -/
theorem deckOf_perm (h2 : Nat → Nat → Nat) (cs : Nat) :
    List.Perm (deckOf h2 cs) (List.range 25) := by
  have hperm : List.Perm (sortWeights (cardWeights h2 cs)) (cardWeights h2 cs) :=
    List.perm_insertionSort _ _
  have hmap := hperm.map (·.card)
  have : (cardWeights h2 cs).map (·.card) = List.range 25 := by
    simp [cardWeights, N_CARDS, List.map_map, Function.comp_def]
  rw [this] at hmap
  exact hmap

/-- C2 -- For every pair of seeds and every session id (and every hash
implementation), the deck returned by `simulateFullGame` is a permutation of
`{0..24}`: it has exactly 25 entries, the entries are pairwise distinct, and
every entry lies in `[0, 25)`. -/
theorem simulateFullGame_deck_perm
    (h2 : Nat → Nat → Nat) (h3 : Nat → Nat → Nat → Nat) (s1 s2 sid : Nat) :
    (simulateFullGame h2 h3 s1 s2 sid).deck.length = 25 ∧
      (simulateFullGame h2 h3 s1 s2 sid).deck.Nodup ∧
      ∀ x ∈ (simulateFullGame h2 h3 s1 s2 sid).deck, x < 25 := by
  rw [simulateFullGame_deck]
  have hperm := deckOf_perm h2 (h3 s1 s2 sid)
  refine ⟨?_, ?_, ?_⟩
  · have := hperm.length_eq
    simpa using this
  · exact (List.Perm.nodup_iff hperm).mpr (List.nodup_range 25)
  · intro x hx
    have := hperm.mem_iff.mp hx
    simpa using this

/-! ## The arithmetic circuit (game_sim.circom)

Signals are BN254 field elements.  In the honest runs considered here every
signal value is a small natural (cards < 25, types ≤ 3, scores ≤ 12, 0/1
booleans), far below the field modulus, so field arithmetic never wraps and
the circuit is modelled over `Nat`; each `Nat` subtraction below only ever
sees a subtrahend that is provably at most the minuend.  The comparator
templates are modelled by their specified semantics, which is exact for the
bit-widths and in-range inputs occurring here. -/

/-- `LessThan(n)` comparator output (valid for inputs below `2^n`). -/
def lessThanOut (a b : Nat) : Nat := if a < b then 1 else 0

/-- `IsEqual` comparator output. -/
def isEqualOut (a b : Nat) : Nat := if a = b then 1 else 0

/-- `IsZero` output. -/
def isZeroOut (a : Nat) : Nat := if a = 0 then 1 else 0

/-- `GreaterEqThan(n)` comparator output (valid for inputs below `2^n`). -/
def greaterEqThanOut (a b : Nat) : Nat := if a ≥ b then 1 else 0

/-- `GreaterThan(n)` comparator output (valid for inputs below `2^n`). -/
def greaterThanOut (a b : Nat) : Nat := if a > b then 1 else 0

/-- The `CardType` template:
`card_type = (1 - lt8.out) + (1 - lt16.out) + (1 - lt24.out)`. -/
def cardTypeC (card : Nat) : Nat :=
  (1 - lessThanOut card 8) + (1 - lessThanOut card 16) + (1 - lessThanOut card 24)

/-- `combined = type_p1 * 3 + type_p2` in `GameRound`. -/
def combinedC (t1 t2 : Nat) : Nat := t1 * 3 + t2

/-- `p1_wins_rps = eq1.out + eq5.out + eq6.out`: P1 wins when the combined
encoding is in `{1, 5, 6}`. -/
def p1WinsRpsC (t1 t2 : Nat) : Nat :=
  isEqualOut (combinedC t1 t2) 1 + isEqualOut (combinedC t1 t2) 5 +
    isEqualOut (combinedC t1 t2) 6

/-- `is_tie = eq0.out + eq4.out + eq8.out`: tie when the combined encoding is
in `{0, 4, 8}`. -/
def isTieC (t1 t2 : Nat) : Nat :=
  isEqualOut (combinedC t1 t2) 0 + isEqualOut (combinedC t1 t2) 4 +
    isEqualOut (combinedC t1 t2) 8

/-- `p2_wins_rps = 1 - p1_wins_rps - is_tie`. -/
def p2WinsRpsC (t1 t2 : Nat) : Nat := 1 - p1WinsRpsC t1 t2 - isTieC t1 t2

/-- The chained state of the `GameRound` template:
`(score_p1, score_p2, game_active, winner)`. -/
structure CircState where
  scoreP1 : Nat
  scoreP2 : Nat
  active : Nat
  winner : Nat
deriving Repr, DecidableEq

/-- The `GameRound` template, signal by signal. -/
def gameRoundC (cardP1 cardP2 : Nat) (st : CircState) : CircState :=
  let typeP1 := cardTypeC cardP1
  let typeP2 := cardTypeC cardP2
  let isBsP1 := isEqualOut typeP1 3
  let isBsP2 := isEqualOut typeP2 3
  let bsProduct := isBsP1 * isBsP2
  let anyBs := isBsP1 + isBsP2 - bsProduct
  let noBs := 1 - anyBs
  let activeNoBs := st.active * noBs
  let deltaP1 := p1WinsRpsC typeP1 typeP2 * activeNoBs
  let deltaP2 := p2WinsRpsC typeP1 typeP2 * activeNoBs
  let scoreP1Out := st.scoreP1 + deltaP1
  let scoreP2Out := st.scoreP2 + deltaP2
  let ge3P1 := greaterEqThanOut scoreP1Out 3
  let ge3P2 := greaterEqThanOut scoreP2Out 3
  let winnerNotSet := isEqualOut st.winner 0
  let canSetWinner := st.active * winnerNotSet
  let bsWinnerCode := isBsP1 * 2 + isBsP2 * 1 - bsProduct * 3
  let bsSetsWinner := canSetWinner * anyBs
  let bsContribution := bsSetsWinner * bsWinnerCode
  let noBsCanSet := canSetWinner * noBs
  let score3P1 := ge3P1 * noBsCanSet
  let score3P2Temp := ge3P2 * noBsCanSet
  let score3P2 := score3P2Temp * (1 - ge3P1)
  let scoreContribution := score3P1 * 1 + score3P2 * 2
  let winnerOut := st.winner + bsContribution + scoreContribution
  let stillActive := isZeroOut (bsContribution + scoreContribution)
  let activeOut := st.active * stillActive
  ⟨scoreP1Out, scoreP2Out, activeOut, winnerOut⟩

/-- Initial chained state of `GameSim`:
`scores_p1[0] = scores_p2[0] = 0, active[0] = 1, winners[0] = 0`. -/
def circInit : CircState := ⟨0, 0, 1, 0⟩

/-- The chain of 12 `GameRound` instances in `GameSim`, fed with
`(deck[2i], deck[2i+1])`. -/
def circChain (pairs : List (Nat × Nat)) : CircState :=
  pairs.foldl (fun st p => gameRoundC p.1 p.2 st) circInit

/-- The `GameSim(25)` template: 12 chained rounds, then the deck-exhaustion
tiebreaker with the Poseidon coin flip
(`coin_lsb` = bit 0 of `Poseidon(cs, 25)`). -/
def gameSimC (h2 : Nat → Nat → Nat) (deck : List Nat) (combinedSeed : Nat) : Nat :=
  let final := circChain (deckPairs deck)
  let s1GtS2 := greaterThanOut final.scoreP1 final.scoreP2
  let s2GtS1 := greaterThanOut final.scoreP2 final.scoreP1
  let scoresEqual := isEqualOut final.scoreP1 final.scoreP2
  let coinLsb := h2 combinedSeed 25 % 2
  let coinWinner := 1 + coinLsb
  let tbP1Wins := s1GtS2 * final.active
  let tbP2Wins := s2GtS1 * final.active
  let tbTie := scoresEqual * final.active
  let tiebreakWinner := tbP1Wins * 1 + tbP2Wins * 2 + tbTie * coinWinner
  final.winner + tiebreakWinner

/-! ## Correspondence between the simulator loop and the circuit chain -/

/-- A frozen circuit round: once `game_active = 0`, a `GameRound` instance
passes its state through unchanged, for arbitrary card inputs. -/
theorem gameRoundC_frozen (c1 c2 : Nat) (s1 s2 w : Nat) :
    gameRoundC c1 c2 ⟨s1, s2, 0, w⟩ = ⟨s1, s2, 0, w⟩ := by
  simp [gameRoundC, isZeroOut]

/-- The correspondence between a simulator state and a circuit state:
equal scores, `game_active` mirrors `¬gameOver`, equal winner. -/
def StateRel (s : SimState) (c : CircState) : Prop :=
  c.scoreP1 = s.scoreP1 ∧ c.scoreP2 = s.scoreP2 ∧
    c.active = (if s.gameOver then 0 else 1) ∧ c.winner = s.winner

/-- Strengthened simulator invariant used for the circuit correspondence:
while the game is active the winner is unset and both scores are at most 2
(a score of 3 ends the game); once it is over the winner is 1 or 2. -/
def SimInvB (s : SimState) : Prop :=
  (s.gameOver = false → s.winner = 0 ∧ s.scoreP1 ≤ 2 ∧ s.scoreP2 ≤ 2) ∧
  (s.gameOver = true → s.winner = 1 ∨ s.winner = 2)

instance (s : SimState) : Decidable (SimInvB s) := by
  unfold SimInvB
  infer_instance

instance (s : SimState) (c : CircState) : Decidable (StateRel s c) := by
  unfold StateRel
  infer_instance

set_option synthInstance.maxSize 1024 in
set_option maxHeartbeats 1600000 in
/-- One active round of the circuit agrees with one simulator round, for any
in-range pair of cards that are not both the Black Spot and any active state
with scores at most 2; the bound invariant is preserved. -/
theorem gameRoundC_sim :
    ∀ c1, c1 < 25 → ∀ c2, c2 < 25 → ∀ a, a ≤ 2 → ∀ b, b ≤ 2 →
      ¬(c1 = 24 ∧ c2 = 24) →
      gameRoundC c1 c2 ⟨a, b, 1, 0⟩ =
        ⟨(simRound ⟨a, b, 0, false⟩ c1 c2).1.scoreP1,
         (simRound ⟨a, b, 0, false⟩ c1 c2).1.scoreP2,
         (if (simRound ⟨a, b, 0, false⟩ c1 c2).1.gameOver then 0 else 1),
         (simRound ⟨a, b, 0, false⟩ c1 c2).1.winner⟩ ∧
      SimInvB (simRound ⟨a, b, 0, false⟩ c1 c2).1 := by
  decide

/-- Once the simulator's game is over, the round loop stops immediately. -/
theorem simRounds_frozen (l : List (Nat × Nat)) (s : SimState)
    (h : s.gameOver = true) : simRounds s l = (s, []) := by
  cases l <;> simp [simRounds, h]

/-- Once `game_active = 0`, the whole remaining circuit chain passes the
state through unchanged. -/
theorem circChain_frozen (l : List (Nat × Nat)) :
    ∀ s1 s2 w, l.foldl (fun st p => gameRoundC p.1 p.2 st) ⟨s1, s2, 0, w⟩ =
      ⟨s1, s2, 0, w⟩ := by
  induction l with
  | nil => intro s1 s2 w; rfl
  | cons p rest ih =>
    intro s1 s2 w
    simp only [List.foldl_cons, gameRoundC_frozen]
    exact ih s1 s2 w

/-- The 12-round circuit chain simulates the simulator's round loop: given
in-range, not-both-Black-Spot card pairs and corresponding start states, the
final states correspond and the simulator invariant holds. -/
theorem circChain_sim (l : List (Nat × Nat)) :
    ∀ (s : SimState) (c : CircState),
      (∀ p ∈ l, p.1 < 25 ∧ p.2 < 25 ∧ ¬(p.1 = 24 ∧ p.2 = 24)) →
      StateRel s c → SimInvB s →
      StateRel (simRounds s l).1 (l.foldl (fun st p => gameRoundC p.1 p.2 st) c) ∧
        SimInvB (simRounds s l).1 := by
  induction l with
  | nil => intro s c _ hrel hinv; exact ⟨hrel, hinv⟩
  | cons p rest ih =>
    intro s c hvalid hrel hinv
    obtain ⟨hcs1, hcs2, hca, hcw⟩ := hrel
    by_cases hover : s.gameOver = true
    · rw [simRounds_frozen (p :: rest) s hover]
      have hca0 : c.active = 0 := by rw [hca, hover]; rfl
      cases c with
      | mk cs1 cs2 ca cw =>
        simp only at hcs1 hcs2 hca0 hcw
        subst hcs1 hcs2 hcw hca0
        simp only [List.foldl_cons, gameRoundC_frozen, circChain_frozen]
        exact ⟨⟨rfl, rfl, by rw [hover]; rfl, rfl⟩, hinv⟩
    · have hoverf : s.gameOver = false := by
        cases hg : s.gameOver
        · rfl
        · exact absurd hg hover
      obtain ⟨hw0, ha2, hb2⟩ := hinv.1 hoverf
      obtain ⟨hp1, hp2, hpbs⟩ := hvalid p (List.mem_cons_self p rest)
      cases s with
      | mk a b w g =>
        simp only at hw0 ha2 hb2 hoverf
        subst hw0
        subst hoverf
        have hstep := gameRoundC_sim p.1 hp1 p.2 hp2 a ha2 b hb2 hpbs
        have hloop : simRounds ⟨a, b, 0, false⟩ (p :: rest) =
            ((simRounds (simRound ⟨a, b, 0, false⟩ p.1 p.2).1 rest).1,
             (simRound ⟨a, b, 0, false⟩ p.1 p.2).2 ::
               (simRounds (simRound ⟨a, b, 0, false⟩ p.1 p.2).1 rest).2) := by
          simp [simRounds]
        rw [hloop]
        have hc : c = ⟨a, b, 1, 0⟩ := by
          cases c with
          | mk cs1 cs2 ca cw =>
            simp only at hcs1 hcs2 hca hcw
            simp [hcs1, hcs2, hca, hcw]
        subst hc
        simp only [List.foldl_cons]
        rw [hstep.1]
        exact ih (simRound ⟨a, b, 0, false⟩ p.1 p.2).1 _
          (fun q hq => hvalid q (List.mem_cons_of_mem p hq))
          ⟨rfl, rfl, by split <;> simp_all, rfl⟩ hstep.2

/-- The card pairs fed to the rounds are in range and never both the Black
Spot, because the deck has 25 pairwise-distinct entries below 25. -/
theorem deckPairs_valid (deck : List Nat) (hlen : deck.length = 25)
    (hnd : deck.Nodup) (hmem : ∀ x ∈ deck, x < 25) :
    ∀ p ∈ deckPairs deck, p.1 < 25 ∧ p.2 < 25 ∧ ¬(p.1 = 24 ∧ p.2 = 24) := by
  intro p hp
  simp only [deckPairs, List.mem_map, List.mem_range] at hp
  obtain ⟨i, hi, rfl⟩ := hp
  have h1 : 2 * i < deck.length := by omega
  have h2 : 2 * i + 1 < deck.length := by omega
  rw [List.getD_eq_getElem deck 0 h1, List.getD_eq_getElem deck 0 h2]
  refine ⟨hmem _ (deck.getElem_mem h1), hmem _ (deck.getElem_mem h2), ?_⟩
  rintro ⟨he1, he2⟩
  have heq : (2 * i : Nat) = 2 * i + 1 :=
    (List.Nodup.getElem_inj_iff hnd).mp (he1.trans he2.symm)
  omega

/-- C3 -- If the simulated game is still active after all 12 rounds with
equal scores, the simulator sets `winner = Poseidon2(cs,25) mod 2 + 1`
(1 when even, 2 when odd) and `endReason = "coinflip"`, and the circuit's
`GameSim` tiebreaker computes the same winner from the least significant bit
of `Poseidon(cs, 25)`. -/
theorem coinflip_branch_agrees (h2 : Nat → Nat → Nat) (h3 : Nat → Nat → Nat → Nat)
    (s1 s2 sid : Nat)
    (hactive : (simRounds simInit (deckPairs (deckOf h2 (h3 s1 s2 sid)))).1.gameOver
      = false)
    (htie : (simRounds simInit (deckPairs (deckOf h2 (h3 s1 s2 sid)))).1.scoreP1
      = (simRounds simInit (deckPairs (deckOf h2 (h3 s1 s2 sid)))).1.scoreP2) :
    (simulateFullGame h2 h3 s1 s2 sid).winner = h2 (h3 s1 s2 sid) 25 % 2 + 1 ∧
    (simulateFullGame h2 h3 s1 s2 sid).endReason = "coinflip" ∧
    gameSimC h2 (deckOf h2 (h3 s1 s2 sid)) (h3 s1 s2 sid) =
      (simulateFullGame h2 h3 s1 s2 sid).winner := by
  have hperm := deckOf_perm h2 (h3 s1 s2 sid)
  have hvalid := deckPairs_valid (deckOf h2 (h3 s1 s2 sid))
    (by simpa using hperm.length_eq)
    ((List.Perm.nodup_iff hperm).mpr (List.nodup_range 25))
    (fun x hx => by simpa using hperm.mem_iff.mp hx)
  have hchain := circChain_sim (deckPairs (deckOf h2 (h3 s1 s2 sid))) simInit circInit
    hvalid ⟨rfl, rfl, rfl, rfl⟩
    ⟨fun _ => ⟨rfl, by simp [simInit], by simp [simInit]⟩, by simp [simInit]⟩
  obtain ⟨⟨hs1, hs2, hact, hwin⟩, hinvB⟩ := hchain
  obtain ⟨hw0, -, -⟩ := hinvB.1 hactive
  have hw : (simulateFullGame h2 h3 s1 s2 sid).winner =
      h2 (h3 s1 s2 sid) 25 % 2 + 1 := by
    rw [simulateFullGame_winner]
    simp [simWinner, hactive, htie]
  refine ⟨hw, ?_, ?_⟩
  · rw [simulateFullGame_endReason]
    simp [simEndReason, hactive, htie]
  · rw [hw]
    unfold gameSimC circChain
    dsimp only
    rw [hwin, hact, hs1, hs2, hw0, hactive, htie]
    simp [greaterThanOut, isEqualOut, Nat.add_comm]

set_option synthInstance.maxSize 1024 in
set_option maxHeartbeats 1600000 in
/-- C4 -- For all card types in `{0,1,2}`, the circuit `GameRound`'s
encoding `combined = t1*3 + t2` with P1-win set `{1,5,6}` and tie set
`{0,4,8}` decides the round exactly as the reference rule `rpsWinner`
(tie iff `t1 = t2`, P1 wins iff `(t1+1) mod 3 = t2`, else P2), the circuit
card-type formula agrees with `cardType`, and in an active round on
non-Black-Spot cards exactly the winner's score is incremented by 1. -/
theorem gameRound_rps_encoding_correct :
    (∀ t1, t1 < 3 → ∀ t2, t2 < 3 →
      (isTieC t1 t2 = 1 ↔ rpsWinner t1 t2 = 0) ∧
      (p1WinsRpsC t1 t2 = 1 ↔ rpsWinner t1 t2 = 1) ∧
      (p2WinsRpsC t1 t2 = 1 ↔ rpsWinner t1 t2 = 2) ∧
      (rpsWinner t1 t2 = 0 ↔ t1 = t2) ∧
      (rpsWinner t1 t2 = 1 ↔ (t1 ≠ t2 ∧ (t1 + 1) % 3 = t2))) ∧
    (∀ c, c < 25 → cardTypeC c = cardType c) ∧
    (∀ c1, c1 < 24 → ∀ c2, c2 < 24 → ∀ a, a ≤ 2 → ∀ b, b ≤ 2 →
      (gameRoundC c1 c2 ⟨a, b, 1, 0⟩).scoreP1 =
        a + (if rpsWinner (cardTypeC c1) (cardTypeC c2) = 1 then 1 else 0) ∧
      (gameRoundC c1 c2 ⟨a, b, 1, 0⟩).scoreP2 =
        b + (if rpsWinner (cardTypeC c1) (cardTypeC c2) = 2 then 1 else 0)) := by
  decide

/-- C5 -- In a simulated round, if player 1's card has type 3 (Black Spot)
the game ends immediately with `winner = 2`; otherwise if player 2's card
has type 3 it ends with `winner = 1`; in either case the round record's
black-spot flag is set, the RPS comparison is skipped (`roundWinner = 0`)
and neither score changes. -/
theorem blackSpot_ends_game (s : SimState) (c1 c2 : Nat)
    (_hactive : s.gameOver = false) :
    (cardType c1 = 3 →
      (simRound s c1 c2).1.winner = 2 ∧ (simRound s c1 c2).1.gameOver = true ∧
      (simRound s c1 c2).2.blackSpot = true ∧
      (simRound s c1 c2).2.roundWinner = 0 ∧
      (simRound s c1 c2).1.scoreP1 = s.scoreP1 ∧
      (simRound s c1 c2).1.scoreP2 = s.scoreP2) ∧
    (cardType c1 ≠ 3 → cardType c2 = 3 →
      (simRound s c1 c2).1.winner = 1 ∧ (simRound s c1 c2).1.gameOver = true ∧
      (simRound s c1 c2).2.blackSpot = true ∧
      (simRound s c1 c2).2.roundWinner = 0 ∧
      (simRound s c1 c2).1.scoreP1 = s.scoreP1 ∧
      (simRound s c1 c2).1.scoreP2 = s.scoreP2) := by
  constructor
  · intro h1
    simp [simRound, h1]
  · intro h1 h2
    simp [simRound, h1, h2]

/-- A round record with the black-spot flag can only come from the
black-spot branches of `simRound`: its per-round winner is 0, the game is
over, and the state winner is 2 when P1 drew the spot, 1 otherwise. -/
theorem simRound_blackSpot (s : SimState) (c1 c2 : Nat)
    (hbs : (simRound s c1 c2).2.blackSpot = true) :
    (simRound s c1 c2).2.roundWinner = 0 ∧
    (simRound s c1 c2).1.gameOver = true ∧
    (simRound s c1 c2).1.winner =
      (if (simRound s c1 c2).2.type1 = 3 then 2 else 1) := by
  by_cases h1 : cardType c1 = 3
  · simp [simRound, h1]
  · by_cases h2 : cardType c2 = 3
    · simp [simRound, h1, h2]
    · exfalso
      simp only [simRound, h1, h2, if_false] at hbs
      repeat' split at hbs
      all_goals simp_all

/-- Through the whole round loop: any record with the black-spot flag ends
the loop, its per-round winner is 0, and the loop's final winner is derived
from which side drew the spot. -/
theorem simRounds_blackSpot (l : List (Nat × Nat)) :
    ∀ (s : SimState), ∀ r ∈ (simRounds s l).2, r.blackSpot = true →
      r.roundWinner = 0 ∧ (simRounds s l).1.gameOver = true ∧
      (simRounds s l).1.winner = (if r.type1 = 3 then 2 else 1) := by
  induction l with
  | nil => intro s r hr; simp [simRounds] at hr
  | cons p rest ih =>
    intro s r hr hbs
    by_cases hover : s.gameOver = true
    · rw [simRounds_frozen (p :: rest) s hover] at hr
      simp at hr
    · have hne : s.gameOver = false := by
        cases hg : s.gameOver
        · rfl
        · exact absurd hg hover
      have hloop : simRounds s (p :: rest) =
          ((simRounds (simRound s p.1 p.2).1 rest).1,
           (simRound s p.1 p.2).2 ::
             (simRounds (simRound s p.1 p.2).1 rest).2) := by
        simp [simRounds, hne]
      rw [hloop] at hr ⊢
      rcases List.mem_cons.mp hr with hhead | htail
      · subst hhead
        have hsr := simRound_blackSpot s p.1 p.2 hbs
        rw [simRounds_frozen rest _ hsr.2.1]
        exact ⟨hsr.1, hsr.2.1, hsr.2.2⟩
      · exact ih _ r htail hbs

/-- C10 -- In every round record produced by `simulateFullGame`, a round
ended by the Black Spot has `roundWinner = 0` and `blackSpot = true`; the
per-round field never records the game-ending winner, which only appears in
the top-level `winner` and equals the game board's derivation
`if type1 = 3 then 2 else 1`. -/
theorem blackSpot_record_roundWinner_zero
    (h2 : Nat → Nat → Nat) (h3 : Nat → Nat → Nat → Nat) (s1 s2 sid : Nat) :
    ∀ r ∈ (simulateFullGame h2 h3 s1 s2 sid).rounds, r.blackSpot = true →
      r.roundWinner = 0 ∧
      (simulateFullGame h2 h3 s1 s2 sid).winner = (if r.type1 = 3 then 2 else 1) := by
  intro r hr hbs
  rw [simulateFullGame_rounds] at hr
  have h := simRounds_blackSpot _ _ r hr hbs
  refine ⟨h.1, ?_⟩
  rw [simulateFullGame_winner]
  simp only [simWinner, h.2.1, if_true]
  exact h.2.2

/-! ## The relay server's event log (src/relay/src/server.ts) -/

/-- `MAX_EVENTS = 100` in server.ts. -/
def MAX_EVENTS : Nat := 100

/-- The disjoint ways `onMessage` treats a message with respect to the
persisted event log: oversize messages (`> MAX_MESSAGE_SIZE`), rate-limited
messages and JSON parse failures are dropped; `STATE_REQUEST` only reads;
`MATCHED` clears the log; every other message is appended (and the log
capped). -/
inductive RelayMsg where
  | oversize
  | rateLimited
  | malformed
  | stateRequest
  | matched
  | event (raw : String)

/-- The effect of one `onMessage` call on the stored `events` list:
`events.push(raw); if (events.length > MAX_EVENTS) events =
events.slice(-MAX_EVENTS)` in the storing case (`slice(-k)` keeps the last
`k` elements, i.e. drops `length - k` from the front). -/
def onMessageEvents (events : List String) (m : RelayMsg) : List String :=
  match m with
  | .oversize => events
  | .rateLimited => events
  | .malformed => events
  | .stateRequest => events
  | .matched => []
  | .event raw =>
    let events2 := events ++ [raw]
    if events2.length > MAX_EVENTS then events2.drop (events2.length - MAX_EVENTS)
    else events2

theorem onMessageEvents_length_le (events : List String) (m : RelayMsg)
    (h : events.length ≤ MAX_EVENTS) :
    (onMessageEvents events m).length ≤ MAX_EVENTS := by
  cases m with
  | oversize => exact h
  | rateLimited => exact h
  | malformed => exact h
  | stateRequest => exact h
  | matched => simp [onMessageEvents, MAX_EVENTS]
  | event raw =>
    unfold onMessageEvents
    dsimp only
    split
    · rw [List.length_drop]
      omega
    · next hle => omega

theorem relay_fold_le (msgs : List RelayMsg) :
    ∀ events : List String, events.length ≤ MAX_EVENTS →
      (msgs.foldl onMessageEvents events).length ≤ MAX_EVENTS := by
  induction msgs with
  | nil => intro e h; exact h
  | cons m rest ih =>
    intro e h
    exact ih _ (onMessageEvents_length_le e m h)

/-- C9 -- For every sequence of messages processed by the relay room's
`onMessage` handler, the persisted per-room event log never exceeds
`MAX_EVENTS = 100` entries; and appending a message keeps only the most
recent 100 entries: the stored list after an append is a suffix of
`events ++ [raw]` of length `min (length + 1) 100`. -/
theorem relay_event_log_capped :
    (∀ msgs : List RelayMsg,
      (msgs.foldl onMessageEvents []).length ≤ MAX_EVENTS) ∧
    (∀ (events : List String) (raw : String),
      (onMessageEvents events (RelayMsg.event raw)).length =
        min (events.length + 1) MAX_EVENTS ∧
      (onMessageEvents events (RelayMsg.event raw)).IsSuffix (events ++ [raw])) := by
  constructor
  · intro msgs
    exact relay_fold_le msgs [] (by simp [MAX_EVENTS])
  · intro events raw
    unfold onMessageEvents
    dsimp only
    split
    · next hgt =>
      constructor
      · rw [List.length_drop]
        rw [List.length_append] at hgt ⊢
        simp at hgt ⊢
        omega
      · exact List.drop_suffix _ _
    · next hle =>
      constructor
      · rw [List.length_append] at hle ⊢
        simp at hle ⊢
        omega
      · exact List.suffix_refl _

/-! ## Hex serialization (g2ToHex, generateRandomSeed)

JS `v.toString(16)` renders a BigInt as minimal lowercase big-endian hex
("0" for zero); `padStart(k, "0")` left-pads to `k` characters;
`BigInt("0x" + s)` parses back.  Digits are modelled as values 0–15 mapped
to characters by `Nat.digitChar` (which yields the same lowercase alphabet). -/

/-- Fuel-indexed big-endian hex digits of `n` (empty for 0); with fuel at
least `n` this is the minimal digit string. -/
def toHexAux : Nat → Nat → List Nat
  | 0, _ => []
  | fuel + 1, n => if n = 0 then [] else toHexAux fuel (n / 16) ++ [n % 16]

/-- Digit values of JS `v.toString(16)`: minimal big-endian digits, `[0]`
for 0. -/
def toHexDigits (n : Nat) : List Nat :=
  if n = 0 then [0] else toHexAux n n

/-- JS `v.toString(16)` as a char list (lowercase hex). -/
def toHexString (n : Nat) : List Char := (toHexDigits n).map Nat.digitChar

/-- JS `s.padStart(k, c)` on a char list. -/
def padStart (k : Nat) (c : Char) (s : List Char) : List Char :=
  List.replicate (k - s.length) c ++ s

/-- Value of a big-endian hex digit string. -/
def hexVal (ds : List Nat) : Nat := ds.foldl (fun acc d => acc * 16 + d) 0

/-- Numeric value of a lowercase hex digit character (how `BigInt("0x"+s)`
reads each character). -/
def hexCharVal (c : Char) : Nat :=
  if c = '0' then 0 else if c = '1' then 1 else if c = '2' then 2
  else if c = '3' then 3 else if c = '4' then 4 else if c = '5' then 5
  else if c = '6' then 6 else if c = '7' then 7 else if c = '8' then 8
  else if c = '9' then 9 else if c = 'a' then 10 else if c = 'b' then 11
  else if c = 'c' then 12 else if c = 'd' then 13 else if c = 'e' then 14
  else 15

/-- JS `BigInt("0x" + s)` on a char list of hex digits. -/
def parseHex (s : List Char) : Nat :=
  s.foldl (fun acc c => acc * 16 + hexCharVal c) 0

theorem hexVal_from (ds : List Nat) : ∀ a : Nat,
    ds.foldl (fun acc d => acc * 16 + d) a = a * 16 ^ ds.length + hexVal ds := by
  induction ds with
  | nil => intro a; simp [hexVal]
  | cons d ds ih =>
    intro a
    rw [List.foldl_cons, ih (a * 16 + d)]
    have h0 : hexVal (d :: ds) = d * 16 ^ ds.length + hexVal ds := by
      unfold hexVal
      rw [List.foldl_cons, ih (0 * 16 + d)]
      simp [hexVal]
    rw [h0, List.length_cons]
    ring

theorem hexVal_cons (d : Nat) (ds : List Nat) :
    hexVal (d :: ds) = d * 16 ^ ds.length + hexVal ds := by
  unfold hexVal
  rw [List.foldl_cons, hexVal_from ds (0 * 16 + d)]
  simp [hexVal]

theorem hexVal_append_digit (ds : List Nat) (d : Nat) :
    hexVal (ds ++ [d]) = hexVal ds * 16 + d := by
  unfold hexVal
  rw [List.foldl_append]
  rfl

theorem hexVal_lt (ds : List Nat) (h : ∀ d ∈ ds, d < 16) :
    hexVal ds < 16 ^ ds.length := by
  induction ds with
  | nil => simp [hexVal]
  | cons d ds ih =>
    rw [hexVal_cons, List.length_cons]
    have hd := h d (List.mem_cons_self d ds)
    have hds := ih (fun x hx => h x (List.mem_cons_of_mem d hx))
    calc d * 16 ^ ds.length + hexVal ds < d * 16 ^ ds.length + 16 ^ ds.length := by omega
      _ = (d + 1) * 16 ^ ds.length := by ring
      _ ≤ 16 * 16 ^ ds.length := Nat.mul_le_mul_right _ (by omega)
      _ = 16 ^ (ds.length + 1) := by rw [pow_succ]; ring

theorem toHexAux_val : ∀ fuel n, n ≤ fuel → hexVal (toHexAux fuel n) = n := by
  intro fuel
  induction fuel with
  | zero =>
    intro n h
    have h0 : n = 0 := by omega
    subst h0
    rfl
  | succ fuel ih =>
    intro n h
    unfold toHexAux
    split
    · next h0 => rw [h0]; rfl
    · next h0 =>
      rw [hexVal_append_digit, ih (n / 16) (by omega)]
      omega

theorem toHexAux_digits_lt : ∀ fuel n, ∀ d ∈ toHexAux fuel n, d < 16 := by
  intro fuel
  induction fuel with
  | zero => intro n d hd; simp [toHexAux] at hd
  | succ fuel ih =>
    intro n d hd
    unfold toHexAux at hd
    split at hd
    · simp at hd
    · rcases List.mem_append.mp hd with h | h
      · exact ih _ d h
      · simp at h
        omega

theorem toHexAux_length : ∀ fuel n k, n ≤ fuel → n < 16 ^ k →
    (toHexAux fuel n).length ≤ k := by
  intro fuel
  induction fuel with
  | zero => intro n k _ _; simp [toHexAux]
  | succ fuel ih =>
    intro n k h hk
    unfold toHexAux
    split
    · simp
    · next h0 =>
      rw [List.length_append]
      cases k with
      | zero => simp at hk; omega
      | succ k =>
        have hdiv : n / 16 < 16 ^ k := by
          rw [Nat.div_lt_iff_lt_mul (by norm_num : 0 < 16)]
          calc n < 16 ^ (k + 1) := hk
            _ = 16 ^ k * 16 := by rw [pow_succ]
        have := ih (n / 16) k (by omega) hdiv
        simp only [List.length_cons, List.length_nil]
        omega

theorem toHexDigits_val (n : Nat) : hexVal (toHexDigits n) = n := by
  unfold toHexDigits
  split
  · next h => rw [h]; rfl
  · exact toHexAux_val n n (Nat.le_refl n)

theorem toHexDigits_digits_lt (n : Nat) : ∀ d ∈ toHexDigits n, d < 16 := by
  unfold toHexDigits
  split
  · intro d hd
    simp at hd
    omega
  · exact toHexAux_digits_lt n n

theorem toHexDigits_length (n k : Nat) (hk : 1 ≤ k) (h : n < 16 ^ k) :
    (toHexDigits n).length ≤ k := by
  unfold toHexDigits
  split
  · simpa using hk
  · exact toHexAux_length n n k (Nat.le_refl n) h

/-- Left-padding a digit string with zeros to length `k`. -/
def padDigits (k : Nat) (ds : List Nat) : List Nat :=
  List.replicate (k - ds.length) 0 ++ ds

theorem padDigits_val (k : Nat) (ds : List Nat) :
    hexVal (padDigits k ds) = hexVal ds := by
  unfold padDigits hexVal
  rw [List.foldl_append]
  congr 1
  induction (k - ds.length) with
  | zero => rfl
  | succ m ih =>
    rw [List.replicate_succ, List.foldl_cons]
    simpa using ih

theorem padDigits_length (k : Nat) (ds : List Nat) (h : ds.length ≤ k) :
    (padDigits k ds).length = k := by
  unfold padDigits
  rw [List.length_append, List.length_replicate]
  omega

theorem padDigits_digits_lt (k : Nat) (ds : List Nat) (h : ∀ d ∈ ds, d < 16) :
    ∀ d ∈ padDigits k ds, d < 16 := by
  intro d hd
  rcases List.mem_append.mp hd with h1 | h1
  · have := List.eq_of_mem_replicate h1
    omega
  · exact h d h1

/-- The `k` big-endian base-16 digits of `n`, digit `i` being
`n / 16^(k-1-i) mod 16`: the positional reading of a `k`-hex-char
big-endian value. -/
def beDigits (k n : Nat) : List Nat :=
  (List.range k).map fun i => n / 16 ^ (k - 1 - i) % 16

theorem beDigits_length (k n : Nat) : (beDigits k n).length = k := by
  simp [beDigits]

theorem beDigits_digits_lt (k n : Nat) : ∀ d ∈ beDigits k n, d < 16 := by
  intro d hd
  simp only [beDigits, List.mem_map, List.mem_range] at hd
  obtain ⟨i, _, rfl⟩ := hd
  exact Nat.mod_lt _ (by norm_num)

theorem digit_of_mod_pow (n j k : Nat) (h : j < k) :
    n % 16 ^ k / 16 ^ j % 16 = n / 16 ^ j % 16 := by
  have key : ∀ m : Nat, m / 16 ^ j % 16 = m % 16 ^ (j + 1) / 16 ^ j := by
    intro m
    rw [pow_succ]
    exact (Nat.mod_mul_right_div_self m (16 ^ j) 16).symm
  rw [key (n % 16 ^ k), key n]
  rw [Nat.mod_mod_of_dvd n (pow_dvd_pow 16 (by omega))]

theorem beDigits_succ (k n : Nat) (h : n < 16 ^ (k + 1)) :
    beDigits (k + 1) n = n / 16 ^ k :: beDigits k (n % 16 ^ k) := by
  unfold beDigits
  rw [List.range_succ_eq_map, List.map_cons]
  congr 1
  · simp only [Nat.add_sub_cancel, Nat.sub_zero]
    apply Nat.mod_eq_of_lt
    rw [Nat.div_lt_iff_lt_mul (Nat.pos_pow_of_pos k (by norm_num))]
    calc n < 16 ^ (k + 1) := h
      _ = 16 * 16 ^ k := by ring
  · rw [List.map_map]
    apply List.map_congr_left
    intro i hi
    rw [List.mem_range] at hi
    show n / 16 ^ (k + 1 - 1 - (i + 1)) % 16 = n % 16 ^ k / 16 ^ (k - 1 - i) % 16
    have he : k + 1 - 1 - (i + 1) = k - 1 - i := by omega
    rw [he, digit_of_mod_pow n (k - 1 - i) k (by omega)]

theorem beDigits_val : ∀ k n, n < 16 ^ k → hexVal (beDigits k n) = n := by
  intro k
  induction k with
  | zero =>
    intro n h
    simp only [pow_zero, Nat.lt_one_iff] at h
    subst h
    rfl
  | succ k ih =>
    intro n h
    rw [beDigits_succ k n h, hexVal_cons, beDigits_length]
    rw [ih (n % 16 ^ k) (Nat.mod_lt n (Nat.pos_pow_of_pos k (by norm_num)))]
    exact Nat.div_add_mod' n (16 ^ k)

theorem hexVal_inj : ∀ ds es : List Nat, ds.length = es.length →
    (∀ d ∈ ds, d < 16) → (∀ e ∈ es, e < 16) → hexVal ds = hexVal es → ds = es := by
  intro ds
  induction ds with
  | nil =>
    intro es hlen _ _ _
    cases es with
    | nil => rfl
    | cons e es => simp at hlen
  | cons d ds ih =>
    intro es hlen hds hes hval
    cases es with
    | nil => simp at hlen
    | cons e es =>
      simp only [List.length_cons] at hlen
      have hlen' : ds.length = es.length := by omega
      rw [hexVal_cons, hexVal_cons, hlen'] at hval
      have hvds : hexVal ds < 16 ^ es.length := by
        rw [← hlen']
        exact hexVal_lt ds (fun x hx => hds x (List.mem_cons_of_mem d hx))
      have hves : hexVal es < 16 ^ es.length :=
        hexVal_lt es (fun x hx => hes x (List.mem_cons_of_mem e hx))
      have hpos : 0 < 16 ^ es.length := Nat.pos_pow_of_pos _ (by norm_num)
      have hdiv : ∀ x y : Nat, y < 16 ^ es.length →
          (x * 16 ^ es.length + y) / 16 ^ es.length = x := by
        intro x y hy
        rw [Nat.mul_comm x (16 ^ es.length), Nat.mul_add_div hpos]
        rw [Nat.div_eq_of_lt hy]
        omega
      have hde : d = e := by
        have h1 := hdiv d (hexVal ds) hvds
        have h2 := hdiv e (hexVal es) hves
        rw [← h1, ← h2, hval]
      subst hde
      have hrest : hexVal ds = hexVal es := by omega
      rw [ih es hlen' (fun x hx => hds x (List.mem_cons_of_mem d hx))
        (fun x hx => hes x (List.mem_cons_of_mem d hx)) hrest]

/-- Padding the minimal JS hex rendering of `n` to `k` digits yields exactly
the `k` positional big-endian digits of `n`. -/
theorem padHex_eq_beDigits (k n : Nat) (hk : 1 ≤ k) (h : n < 16 ^ k) :
    padDigits k (toHexDigits n) = beDigits k n := by
  apply hexVal_inj
  · rw [padDigits_length k _ (toHexDigits_length n k hk h), beDigits_length]
  · exact padDigits_digits_lt k _ (toHexDigits_digits_lt n)
  · exact beDigits_digits_lt k n
  · rw [padDigits_val, toHexDigits_val, beDigits_val k n h]

/-- Padding with `'0'` commutes with rendering digits as characters
(`Nat.digitChar 0 = '0'`). -/
theorem padStart_map_digitChar (k : Nat) (ds : List Nat) :
    padStart k '0' (ds.map Nat.digitChar) = (padDigits k ds).map Nat.digitChar := by
  unfold padStart padDigits
  rw [List.map_append, List.map_replicate, List.length_map]
  rfl

/-- A snarkjs G2 point `[[x_c0, x_c1], [y_c0, y_c1]]`: two Fp2 coordinates,
each with components c0 and c1. -/
structure G2Point where
  xc0 : Nat
  xc1 : Nat
  yc0 : Nat
  yc1 : Nat
deriving Repr, DecidableEq

/-- The 64-hex-char rendering used inside `g2ToHex`:
`BigInt(v).toString(16).padStart(64, "0")`. -/
def hex64 (n : Nat) : List Char := padStart 64 '0' (toHexString n)

/-- `g2ToHex` (soroban.js prover module / prover-test.js / prove.js):
renders the four components and concatenates them with the c1 component
before c0 for each coordinate (`return x_c1 + x_c0 + y_c1 + y_c0`). -/
def g2ToHex (g : G2Point) : List Char :=
  hex64 g.xc1 ++ hex64 g.xc0 ++ hex64 g.yc1 ++ hex64 g.yc0

/-- The reference reading of `be(v)`: the 64 big-endian hex characters of
`v`, written positionally digit by digit. -/
def beHex64 (n : Nat) : List Char := (beDigits 64 n).map Nat.digitChar

theorem hex64_eq_beHex64 (n : Nat) (h : n < 16 ^ 64) : hex64 n = beHex64 n := by
  unfold hex64 beHex64 toHexString
  rw [padStart_map_digitChar, padHex_eq_beDigits 64 n (by norm_num) h]

theorem hex64_length (n : Nat) (h : n < 16 ^ 64) : (hex64 n).length = 64 := by
  rw [hex64_eq_beHex64 n h]
  unfold beHex64
  rw [List.length_map, beDigits_length]

/-- C7 -- For every snarkjs G2 point `[[x_c0, x_c1], [y_c0, y_c1]]` (each
component below `16^64`, i.e. 32 bytes), `g2ToHex` outputs the 128-byte
(256 hex character) concatenation `be(X.c1) ‖ be(X.c0) ‖ be(Y.c1) ‖
be(Y.c0)` — the c0/c1 component order within each coordinate is swapped
relative to the snarkjs layout — with each component a 64-hex-char
big-endian value. -/
theorem g2ToHex_swapped_be (g : G2Point)
    (h0 : g.xc0 < 16 ^ 64) (h1 : g.xc1 < 16 ^ 64)
    (h2 : g.yc0 < 16 ^ 64) (h3 : g.yc1 < 16 ^ 64) :
    g2ToHex g = beHex64 g.xc1 ++ beHex64 g.xc0 ++ beHex64 g.yc1 ++ beHex64 g.yc0 ∧
    (g2ToHex g).length = 256 ∧
    (hex64 g.xc1).length = 64 ∧ (hex64 g.xc0).length = 64 ∧
    (hex64 g.yc1).length = 64 ∧ (hex64 g.yc0).length = 64 := by
  refine ⟨?_, ?_, hex64_length _ h1, hex64_length _ h0,
    hex64_length _ h3, hex64_length _ h2⟩
  · unfold g2ToHex
    rw [hex64_eq_beHex64 _ h1, hex64_eq_beHex64 _ h0,
      hex64_eq_beHex64 _ h3, hex64_eq_beHex64 _ h2]
  · unfold g2ToHex
    rw [List.length_append, List.length_append, List.length_append]
    rw [hex64_length _ h1, hex64_length _ h0, hex64_length _ h3, hex64_length _ h2]

/-- The BN254 scalar-field modulus `r`. -/
def rBN254 : Nat :=
  21888242871839275222246405745257275088548364400416034343698204186575808495617

/-- `generateRandomSeed` (soroban.js prover module / prover-test.js) as a
function of the 31 bytes delivered by `crypto.getRandomValues`:
`BigInt("0x" + Array.from(bytes).map(b => b.toString(16).padStart(2,
"0")).join(""))`. -/
def generateRandomSeed (bytes : List Nat) : Nat :=
  parseHex (List.flatten (bytes.map fun b => padStart 2 '0' (toHexString b)))

theorem hexCharVal_digitChar : ∀ d, d < 16 → hexCharVal (Nat.digitChar d) = d := by
  decide

theorem parseHex_map_digitChar (ds : List Nat) (h : ∀ d ∈ ds, d < 16) :
    parseHex (ds.map Nat.digitChar) = hexVal ds := by
  unfold parseHex hexVal
  have key : ∀ (ds : List Nat), (∀ d ∈ ds, d < 16) → ∀ a : Nat,
      (ds.map Nat.digitChar).foldl (fun acc c => acc * 16 + hexCharVal c) a =
        ds.foldl (fun acc d => acc * 16 + d) a := by
    intro ds
    induction ds with
    | nil => intro _ a; rfl
    | cons d ds ih =>
      intro hmem a
      rw [List.map_cons, List.foldl_cons, List.foldl_cons]
      rw [hexCharVal_digitChar d (hmem d (List.mem_cons_self d ds))]
      exact ih (fun x hx => hmem x (List.mem_cons_of_mem d hx)) _
  exact key ds h 0

/-- The two hex digits of a byte. -/
theorem beDigits_byte (b : Nat) (h : b < 256) :
    beDigits 2 b = [b / 16, b % 16] := by
  have hr : List.range 2 = [0, 1] := rfl
  unfold beDigits
  rw [hr]
  simp only [List.map_cons, List.map_nil, pow_one, pow_zero, Nat.div_one,
    List.cons.injEq, and_true]
  constructor
  · apply Nat.mod_eq_of_lt
    omega
  · norm_num

/-- Rendering one byte: `b.toString(16).padStart(2, "0")` is exactly the two
hex digits `[b / 16, b % 16]` as characters. -/
theorem byteHex_eq (b : Nat) (h : b < 256) :
    padStart 2 '0' (toHexString b) = [b / 16, b % 16].map Nat.digitChar := by
  have h2 : b < 16 ^ 2 := by norm_num; omega
  unfold toHexString
  rw [padStart_map_digitChar, padHex_eq_beDigits 2 b (by norm_num) h2,
    beDigits_byte b h]

theorem hexVal_byteDigits (bytes : List Nat) :
    ∀ a : Nat, (List.flatten (bytes.map fun b => [b / 16, b % 16])).foldl
        (fun acc d => acc * 16 + d) a =
      bytes.foldl (fun acc b => acc * 256 + b) a := by
  induction bytes with
  | nil => intro a; rfl
  | cons b rest ih =>
    intro a
    rw [List.map_cons, List.flatten_cons, List.foldl_append, List.foldl_cons,
      List.foldl_cons, List.foldl_nil, List.foldl_cons, ih]
    congr 1
    omega

theorem flatten_byteDigits_length (bytes : List Nat) :
    (List.flatten (bytes.map fun b => [b / 16, b % 16])).length =
      2 * bytes.length := by
  induction bytes with
  | nil => rfl
  | cons b rest ih =>
    rw [List.map_cons, List.flatten_cons, List.length_append, ih]
    simp only [List.length_cons, List.length_nil, List.length_cons]
    omega

theorem flatten_byteDigits_lt (bytes : List Nat) (h : ∀ b ∈ bytes, b < 256) :
    ∀ d ∈ List.flatten (bytes.map fun b => [b / 16, b % 16]), d < 16 := by
  intro d hd
  rw [List.mem_flatten] at hd
  obtain ⟨l, hl, hdl⟩ := hd
  rw [List.mem_map] at hl
  obtain ⟨b, hbmem, rfl⟩ := hl
  have hb := h b hbmem
  simp only [List.mem_cons, List.mem_singleton, List.not_mem_nil, or_false] at hdl
  rcases hdl with rfl | rfl <;> omega

/-- `generateRandomSeed` parses to the hex value of the concatenated byte
digits. -/
theorem generateRandomSeed_eq_hexVal (bytes : List Nat)
    (h : ∀ b ∈ bytes, b < 256) :
    generateRandomSeed bytes =
      hexVal (List.flatten (bytes.map fun b => [b / 16, b % 16])) := by
  unfold generateRandomSeed
  have h1 : bytes.map (fun b => padStart 2 '0' (toHexString b)) =
      bytes.map (fun b => [b / 16, b % 16].map Nat.digitChar) :=
    List.map_congr_left fun b hb => byteHex_eq b (h b hb)
  rw [h1]
  have h2 : bytes.map (fun b => [b / 16, b % 16].map Nat.digitChar) =
      (bytes.map fun b => [b / 16, b % 16]).map (List.map Nat.digitChar) := by
    rw [List.map_map]
    simp [Function.comp_def]
  rw [h2, ← List.map_flatten]
  exact parseHex_map_digitChar _ (flatten_byteDigits_lt bytes h)

/-- C8 -- For every possible 31-byte random outcome, `generateRandomSeed`
returns the integer assembled big-endian from exactly those bytes (no
modular reduction applied), hence a value strictly below `2^248` and
therefore strictly below the BN254 scalar modulus `r`. -/
theorem generateRandomSeed_below_modulus (bytes : List Nat)
    (hlen : bytes.length = 31) (hb : ∀ b ∈ bytes, b < 256) :
    generateRandomSeed bytes = bytes.foldl (fun acc b => acc * 256 + b) 0 ∧
    generateRandomSeed bytes < 2 ^ 248 ∧
    generateRandomSeed bytes < rBN254 := by
  have hD := generateRandomSeed_eq_hexVal bytes hb
  have hlt : generateRandomSeed bytes < 2 ^ 248 := by
    rw [hD]
    have h1 := hexVal_lt _ (flatten_byteDigits_lt bytes hb)
    rw [flatten_byteDigits_length, hlen] at h1
    have h2 : (16 : Nat) ^ (2 * 31) = 2 ^ 248 := by norm_num
    rw [h2] at h1
    exact h1
  refine ⟨?_, hlt, ?_⟩
  · rw [hD]
    exact hexVal_byteDigits bytes 0
  · have h3 : (2 : Nat) ^ 248 < rBN254 := by
      unfold rBN254
      norm_num
    omega

/-! ## Concrete witnesses

Concrete hash instances used to exhibit the hypotheses of the theorems
above at evaluable inputs. -/

/-- A weight function that keeps the deck in identity order (all 12 rounds
are ties, the Black Spot stays at position 24 and is never drawn). -/
def tieWeights : Nat → Nat → Nat := fun _ i => i

/-- A weight function that puts the Black Spot (card 24) first in the deck. -/
def spotFirstWeights : Nat → Nat → Nat := fun _ i => if i = 24 then 0 else i + 1

/-- A trivial combined-seed function. -/
def zeroHash3 : Nat → Nat → Nat → Nat := fun _ _ _ => 0

theorem coinflip_branch_agrees_witness :
    (simRounds simInit (deckPairs (deckOf tieWeights (zeroHash3 1 2 3)))).1.gameOver
      = false ∧
    (simRounds simInit (deckPairs (deckOf tieWeights (zeroHash3 1 2 3)))).1.scoreP1 =
      (simRounds simInit (deckPairs (deckOf tieWeights (zeroHash3 1 2 3)))).1.scoreP2 ∧
    ((simulateFullGame tieWeights zeroHash3 1 2 3).winner =
       tieWeights (zeroHash3 1 2 3) 25 % 2 + 1 ∧
     (simulateFullGame tieWeights zeroHash3 1 2 3).endReason = "coinflip" ∧
     gameSimC tieWeights (deckOf tieWeights (zeroHash3 1 2 3)) (zeroHash3 1 2 3) =
       (simulateFullGame tieWeights zeroHash3 1 2 3).winner) :=
  ⟨by decide, by decide,
   coinflip_branch_agrees tieWeights zeroHash3 1 2 3 (by decide) (by decide)⟩

theorem gameRound_rps_encoding_correct_witness :
    ((isTieC 0 0 = 1 ↔ rpsWinner 0 0 = 0) ∧
     (p1WinsRpsC 0 0 = 1 ↔ rpsWinner 0 0 = 1) ∧
     (p2WinsRpsC 0 0 = 1 ↔ rpsWinner 0 0 = 2) ∧
     (rpsWinner 0 0 = 0 ↔ (0 : Nat) = 0) ∧
     (rpsWinner 0 0 = 1 ↔ ((0 : Nat) ≠ 0 ∧ (0 + 1) % 3 = 0))) ∧
    ((gameRoundC 8 0 ⟨0, 0, 1, 0⟩).scoreP1 =
       0 + (if rpsWinner (cardTypeC 8) (cardTypeC 0) = 1 then 1 else 0) ∧
     (gameRoundC 8 0 ⟨0, 0, 1, 0⟩).scoreP2 =
       0 + (if rpsWinner (cardTypeC 8) (cardTypeC 0) = 2 then 1 else 0)) :=
  ⟨gameRound_rps_encoding_correct.1 0 (by decide) 0 (by decide),
   gameRound_rps_encoding_correct.2.2 8 (by decide) 0 (by decide) 0 (by decide)
     0 (by decide)⟩

theorem blackSpot_ends_game_witness :
    simInit.gameOver = false ∧
    ((simRound simInit 24 0).1.winner = 2 ∧
     (simRound simInit 24 0).1.gameOver = true ∧
     (simRound simInit 24 0).2.blackSpot = true ∧
     (simRound simInit 24 0).2.roundWinner = 0 ∧
     (simRound simInit 24 0).1.scoreP1 = simInit.scoreP1 ∧
     (simRound simInit 24 0).1.scoreP2 = simInit.scoreP2) :=
  ⟨rfl, (blackSpot_ends_game simInit 24 0 rfl).1 (by decide)⟩

theorem g2ToHex_swapped_be_witness :
    g2ToHex ⟨1, 2, 3, 4⟩ = beHex64 2 ++ beHex64 1 ++ beHex64 4 ++ beHex64 3 ∧
    (g2ToHex ⟨1, 2, 3, 4⟩).length = 256 ∧
    (hex64 2).length = 64 ∧ (hex64 1).length = 64 ∧
    (hex64 4).length = 64 ∧ (hex64 3).length = 64 :=
  g2ToHex_swapped_be ⟨1, 2, 3, 4⟩ (by norm_num) (by norm_num) (by norm_num)
    (by norm_num)

theorem generateRandomSeed_below_modulus_witness :
    (List.replicate 31 (255 : Nat)).length = 31 ∧
    (∀ b ∈ List.replicate 31 (255 : Nat), b < 256) ∧
    (generateRandomSeed (List.replicate 31 255) =
       (List.replicate 31 (255 : Nat)).foldl (fun acc b => acc * 256 + b) 0 ∧
     generateRandomSeed (List.replicate 31 255) < 2 ^ 248 ∧
     generateRandomSeed (List.replicate 31 255) < rBN254) :=
  ⟨by decide, by decide,
   generateRandomSeed_below_modulus (List.replicate 31 255) (by decide) (by decide)⟩

theorem blackSpot_record_roundWinner_zero_witness :
    RoundRec.mk 24 0 3 0 0 true 0 0 true ∈
      (simulateFullGame spotFirstWeights zeroHash3 1 2 3).rounds ∧
    (RoundRec.mk 24 0 3 0 0 true 0 0 true).blackSpot = true ∧
    ((RoundRec.mk 24 0 3 0 0 true 0 0 true).roundWinner = 0 ∧
     (simulateFullGame spotFirstWeights zeroHash3 1 2 3).winner =
       (if (RoundRec.mk 24 0 3 0 0 true 0 0 true).type1 = 3 then 2 else 1)) :=
  ⟨by decide, rfl,
   blackSpot_record_roundWinner_zero spotFirstWeights zeroHash3 1 2 3
     (RoundRec.mk 24 0 3 0 0 true 0 0 true) (by decide) rfl⟩
